/-
Verification of the 1040-paydays projection calculator (src/src/App.jsx).

The JavaScript source computes with IEEE doubles; this development embeds the
arithmetic in ℚ (exact rationals), which matches the code's algebraic structure
exactly wherever a claim is about algebraic identities, counts, orderings and
control flow.  NaN/Infinity inputs are not representable in ℚ; where the code
guards on Number.isFinite, the guard is commented at the definition.  The one
transcendental operation, Math.pow with a fractional exponent (the per-period
rate conversion), is embedded over ℝ with Real.rpow in `perPeriodRate`; the
simulator takes the resulting per-period rate as an input field `rPerPeriod`,
exactly as the code computes it once up front and only ever uses the value.
-/
import Mathlib

set_option maxRecDepth 8000

/-- JS `Math.round`: round half toward +∞, i.e. ⌊x + 1/2⌋. -/
def jsRound (x : ℚ) : ℤ := ⌊x + 1/2⌋

/-- `clampInt(n, min, max)` from App.jsx: `Math.min(max, Math.max(min, Math.round(n)))`.
The JS bounds are arbitrary numbers, so the result is rational in general.
(The `!Number.isFinite(v) → min` branch is unreachable over ℚ.) -/
def clampInt (n lo hi : ℚ) : ℚ := min hi (max lo (jsRound n : ℚ))

/-- Simulator state: the two mutable accumulators of the computeProjection loop. -/
structure SimState where
  balance : ℚ
  totalContrib : ℚ
deriving DecidableEq, Repr

/-- A retained chart point, as pushed onto `points` in computeProjection.
`interestThisPeriod` is absent (none) at period 0. -/
structure ProjPoint where
  periodIndex : ℕ
  yearIndex : ℚ
  balance : ℚ
  totalContrib : ℚ
  interestEarned : ℚ
  interestThisPeriod : Option ℚ
deriving DecidableEq, Repr

/-- The aggregate result of computeProjection. -/
structure ProjResult where
  years : ℚ
  totalPeriods : ℕ
  finalBalance : ℚ
  finalContrib : ℚ
  finalInterest : ℚ
  points : List ProjPoint
deriving DecidableEq, Repr

/-- The argument record of computeProjection.  `rPerPeriod` is the per-period
growth rate the code computes on lines 56–58 (see `perPeriodRate` below for
that conversion, which needs ℝ); all other fields are the JS arguments.
`windfallAtPeriod` is `null` or a number (the code compares it with `===` to
the loop counter), `maxPoints` is a number (non-finite maxPoints behaves as
keep-all, which over ℚ merges into the `maxPoints ≤ 0` case). -/
structure ProjInput where
  currentAge : ℚ
  retirementAge : ℚ
  startingAmount : ℚ
  contributionPerPayday : ℚ
  rPerPeriod : ℚ
  payPeriodsPerYear : ℚ
  windfallAmount : ℚ
  windfallAtPeriod : Option ℚ
  maxPoints : ℚ
deriving DecidableEq, Repr

/-- `years = Math.max(0, retirementAge - currentAge)`. -/
def yearsOf (inp : ProjInput) : ℚ := max 0 (inp.retirementAge - inp.currentAge)

/-- `totalPeriods = Math.max(0, Math.round(years * payPeriodsPerYear))`. -/
def totalPeriodsOf (inp : ProjInput) : ℕ :=
  (jsRound (yearsOf inp * inp.payPeriodsPerYear)).toNat

/-- `keepAll = !Number.isFinite(maxPoints) || maxPoints <= 0` (finiteness is
automatic over ℚ). -/
def keepAll (inp : ProjInput) : Bool := inp.maxPoints ≤ 0

/-- `sampleStep = keepAll ? 1 : Math.max(1, Math.ceil(totalPeriods / maxPoints))`. -/
def sampleStep (inp : ProjInput) : ℕ :=
  if keepAll inp then 1
  else max 1 (⌈(totalPeriodsOf inp : ℚ) / inp.maxPoints⌉).toNat

/-- The amount deposited in the loop body for period `i ≥ 1`: the one-time
windfall when `Number.isFinite(windfallAmount) && windfallAmount > 0 &&
windfallAtPeriod === i`, plus the per-payday contribution.  Both `balance` and
`totalContrib` receive exactly this amount before growth is applied. -/
def depositAt (inp : ProjInput) (i : ℕ) : ℚ :=
  (if 0 < inp.windfallAmount ∧ inp.windfallAtPeriod = some (i : ℚ)
   then inp.windfallAmount else 0) + inp.contributionPerPayday

/-- The `balance` accumulator after running periods 1..i of the loop:
deposits, then `balance = balance * (1 + rPerPeriod)`. -/
def balanceAt (inp : ProjInput) : ℕ → ℚ
  | 0 => inp.startingAmount
  | i + 1 => (balanceAt inp i + depositAt inp (i + 1)) * (1 + inp.rPerPeriod)

/-- The `totalContrib` accumulator after running periods 1..i of the loop. -/
def totalContribAt (inp : ProjInput) : ℕ → ℚ
  | 0 => 0
  | i + 1 => totalContribAt inp i + depositAt inp (i + 1)

/-- The pair of loop accumulators after periods 1..i. -/
def simState (inp : ProjInput) (i : ℕ) : SimState :=
  ⟨balanceAt inp i, totalContribAt inp i⟩

/-- `interestThisPeriod = balance_after_growth - balance_before_growth` at period i ≥ 1. -/
def interestAt (inp : ProjInput) (i : ℕ) : ℚ :=
  (balanceAt inp (i - 1) + depositAt inp i) * (1 + inp.rPerPeriod) -
    (balanceAt inp (i - 1) + depositAt inp i)

/-- The point pushed for index `i` (period 0 has no `interestThisPeriod`). -/
def mkPoint (inp : ProjInput) (i : ℕ) : ProjPoint :=
  { periodIndex := i
    yearIndex := (i : ℚ) / inp.payPeriodsPerYear
    balance := (simState inp i).balance
    totalContrib := (simState inp i).totalContrib
    interestEarned := (simState inp i).balance - inp.startingAmount -
      (simState inp i).totalContrib
    interestThisPeriod := if i = 0 then none else some (interestAt inp i) }

/-- The sampling condition of the loop: `keepAll || i % sampleStep === 0 || i === totalPeriods`. -/
def retained (inp : ProjInput) (i : ℕ) : Bool :=
  keepAll inp || i % sampleStep inp == 0 || i == totalPeriodsOf inp

/-- The `points` array: the seed point for index 0, then one point per loop
index `i ∈ [1, totalPeriods]` that passes the sampling condition, in order. -/
def projPoints (inp : ProjInput) : List ProjPoint :=
  mkPoint inp 0 ::
    ((List.range' 1 (totalPeriodsOf inp)).filter (retained inp)).map (mkPoint inp)

/-- `computeProjection` (App.jsx lines 42–115).  Final aggregates are taken
from the terminal state of the recurrence, independent of sampling. -/
def computeProjection (inp : ProjInput) : ProjResult :=
  { years := yearsOf inp
    totalPeriods := totalPeriodsOf inp
    finalBalance := (simState inp (totalPeriodsOf inp)).balance
    finalContrib := (simState inp (totalPeriodsOf inp)).totalContrib
    finalInterest := (simState inp (totalPeriodsOf inp)).balance -
      inp.startingAmount - (simState inp (totalPeriodsOf inp)).totalContrib
    points := projPoints inp }

/-- The per-period rate conversion of App.jsx lines 56–58:
`payPeriodsPerYear > 0 ? Math.pow(1 + annualRatePct/100, 1/payPeriodsPerYear) - 1 : 0`,
embedded over ℝ (Math.pow with real exponent is rpow). -/
noncomputable def perPeriodRate (annualRatePct payPeriodsPerYear : ℝ) : ℝ :=
  if 0 < payPeriodsPerYear then
    (1 + annualRatePct / 100) ^ ((1 : ℝ) / payPeriodsPerYear) - 1
  else 0

/-- The `when` selector of windfallPeriodFromChoice.  `wother` stands for both
a falsy `when` and an unrecognized string; the code returns null for either. -/
inductive WfWhen where
  | wnone
  | wnow
  | wyear
  | wage
  | wpayday
  | wother
deriving DecidableEq, Repr

/-- `windfallPeriodFromChoice` (App.jsx lines 782–807).  Resolves the timing
policy to a period number or null; the windfall amount is not an argument. -/
def windfallPeriodFromChoice (wh : WfWhen)
    (atYear atAge atPayday currentAge payPeriodsPerYear totalPeriods : ℚ) :
    Option ℚ :=
  match wh with
  | .wnone => none
  | .wother => none
  | .wnow => some 1
  | .wyear =>
      let y := clampInt atYear 1 80
      some (clampInt (y * payPeriodsPerYear) 1 totalPeriods)
  | .wage =>
      let targetAge := clampInt atAge currentAge (currentAge + 80)
      let yearsFromNow := max 0 (targetAge - currentAge)
      some (clampInt (yearsFromNow * payPeriodsPerYear) 1 totalPeriods)
  | .wpayday => some (clampInt atPayday 1 totalPeriods)

/-- Floor of log₁₀ over naturals via fuel (structural, so the kernel can
evaluate it): for n ≥ 1, `log10floorN n` is the largest k with 10^k ≤ n. -/
def log10floorNAux : ℕ → ℕ → ℕ
  | 0, _ => 0
  | fuel + 1, n => if n < 10 then 0 else log10floorNAux fuel (n / 10) + 1

/-- `Math.floor(Math.log10(n))` for a natural n ≥ 1. -/
def log10floorN (n : ℕ) : ℕ := log10floorNAux n n

/-- Fuel loop computing, for 0 < q < 1, the least k ≥ 1 with q·10^k ≥ 1. -/
def qlog10InvAux : ℕ → ℚ → ℕ → ℕ
  | 0, _, acc => acc
  | fuel + 1, q, acc => if 1 ≤ q then acc else qlog10InvAux fuel (q * 10) (acc + 1)

/-- `Math.floor(Math.log10(q))` for a positive rational q. -/
def qlog10floor (q : ℚ) : ℤ :=
  if 1 ≤ q then (log10floorN q.floor.toNat : ℤ)
  else -(qlog10InvAux (log10floorN q.den + 2) q 0 : ℤ)

/-- `niceStep(span, targetTicks)` (App.jsx lines 117–124): snap
`span/targetTicks` up to {1,2,5,10}·10^k.  Non-finite span is not
representable over ℚ; the guard keeps the `span ≤ 0 → 1` branch. -/
def niceStep (span : ℚ) (targetTicks : ℕ) : ℚ :=
  if span ≤ 0 then 1
  else
    let raw := span / (max 1 targetTicks : ℕ)
    let pw : ℚ := 10 ^ qlog10floor raw
    let scaled := raw / pw
    let nice : ℚ := if scaled ≤ 1 then 1 else if scaled ≤ 2 then 2
      else if scaled ≤ 5 then 5 else 10
    nice * pw

/-- `niceCeil(n)` (App.jsx lines 126–132). -/
def niceCeil (n : ℚ) : ℚ :=
  if n ≤ 0 then 1
  else
    let pw : ℚ := 10 ^ qlog10floor n
    let scaled := n / pw
    let nice : ℚ := if scaled ≤ 1 then 1 else if scaled ≤ 2 then 2
      else if scaled ≤ 5 then 5 else 10
    nice * pw

/-- `pickTicks(min, max, targetTicks)` (App.jsx lines 134–142).  The loop
`for (v = 0; v <= niceMax + step/2; v += step) ticks.push(v)` pushes
`⌊(niceMax + step/2)/step⌋ + 1` multiples of `step` (none if the bound is
negative, which in fact cannot happen). -/
def pickTicks (lo hi : ℚ) (targetTicks : ℕ) : List ℚ :=
  if hi ≤ lo then []
  else
    let span := hi - lo
    let step := niceStep span targetTicks
    let niceMax := max step (niceCeil hi)
    let count := (⌊(niceMax + step / 2) / step⌋ + 1).toNat
    (List.range count).map (fun j : ℕ => (j : ℚ) * step)

/-- The deduplicated ascending tick list built by makeLogTicks before
thinning, as a function of `m = Math.max(1, Number(max) || 1)`:
`0`, then `b·10^p ≤ m` for b ∈ {1,2,5}, p = 0..⌊log10 m⌋, then `m` itself if
the last pushed tick is not already `m`; then `Array.from(new Set(…)).sort`. -/
def uniqTicksFrom (m : ℚ) : List ℚ :=
  let raw : List ℚ := 0 ::
    (List.range (log10floorN m.floor.toNat + 1)).flatMap (fun p =>
      ([1, 2, 5] : List ℚ).filterMap (fun b =>
        if b * 10 ^ p ≤ m then some (b * 10 ^ p) else none))
  let raw2 := if raw.getLast? = some m then raw else raw ++ [m]
  (raw2.dedup).insertionSort (fun a b => a ≤ b)

/-- The thinning pass of makeLogTicks applied to the deduplicated list:
keep index 0 (the tick 0), odd interior indices `i ∈ [1, len-2]`, and the
last entry. -/
def thinTicks (uniq : List ℚ) : List ℚ :=
  if uniq.length ≤ 7 then uniq
  else 0 :: ((List.range (uniq.length - 1)).filter (fun i => i % 2 = 1)).map
      (fun i => uniq.getD i 0) ++ [uniq.getLastD 0]

/-- The deduplicated tick list of makeLogTicks for an input `max`
(`m = Math.max(1, Number(max) || 1)`; `Number(max) || 1` maps 0 to 1 and is
the identity on other rationals). -/
def uniqTicks (x : ℚ) : List ℚ := uniqTicksFrom (max 1 (if x = 0 then 1 else x))

/-- `makeLogTicks(max)` (App.jsx lines 144–173). -/
def makeLogTicks (x : ℚ) : List ℚ := thinTicks (uniqTicks x)

/-- One cycle of the yMaxDisplay easing effect (App.jsx lines 1244–1257):
given the previous displayed max, the freshly computed max, the token seen at
the last cycle and the current reset token, return the new displayed max and
the new remembered token.  `!prev` is `prev = 0` over ℚ. -/
def yMaxDisplayStep (prev computedYMax : ℚ) (lastToken scaleResetToken : ℤ) :
    ℚ × ℤ :=
  if lastToken ≠ scaleResetToken then (computedYMax, scaleResetToken)
  else if prev = 0 then (computedYMax, lastToken)
  else if prev ≤ computedYMax then (computedYMax, lastToken)
  else if computedYMax < prev * 0.75 then
    (max computedYMax (prev * 0.96), lastToken)
  else if computedYMax < prev then
    (max computedYMax (prev * 0.985), lastToken)
  else (prev, lastToken)

/-! ## Theorems -/

/-- C1: For every run of the projection simulator (computeProjection), the
returned aggregates satisfy finalBalance − finalContrib − startingAmount ==
finalInterest exactly (the reported finalInterest equals the difference by
construction). -/
theorem accounting_identity (inp : ProjInput) :
    (computeProjection inp).finalBalance - (computeProjection inp).finalContrib -
      inp.startingAmount = (computeProjection inp).finalInterest := by
  simp only [computeProjection]
  ring

/-- C9: For all valid inputs, points[0] of the computeProjection result equals
{periodIndex: 0, balance: startingAmount, totalContrib: 0, interestEarned: 0}
(with yearIndex 0 and no interestThisPeriod). -/
theorem initial_point (inp : ProjInput) :
    (computeProjection inp).points.head? =
      some { periodIndex := 0, yearIndex := 0, balance := inp.startingAmount,
             totalContrib := 0, interestEarned := 0, interestThisPeriod := none } := by
  simp [computeProjection, projPoints, mkPoint, simState, balanceAt, totalContribAt]

/-- C3: For payPeriodsPerYear > 0 the per-period growth rate computed by the
code equals (1 + annualRatePct/100)^(1/payPeriodsPerYear) − 1; for
payPeriodsPerYear ≤ 0 it is 0; each loop period multiplies the
deposit-adjusted balance by (1 + rPerPeriod), and when the rate is 0 the
recurrence degenerates to pure additions (no growth). -/
theorem per_period_rate_conversion (a p : ℝ) (inp : ProjInput) (i : ℕ) :
    (0 < p → perPeriodRate a p = (1 + a / 100) ^ ((1 : ℝ) / p) - 1)
    ∧ (p ≤ 0 → perPeriodRate a p = 0)
    ∧ balanceAt inp (i + 1) =
        (balanceAt inp i + depositAt inp (i + 1)) * (1 + inp.rPerPeriod)
    ∧ (inp.rPerPeriod = 0 →
        balanceAt inp (i + 1) = balanceAt inp i + depositAt inp (i + 1)) := by
  refine ⟨fun h => ?_, fun h => ?_, rfl, fun h => ?_⟩
  · simp [perPeriodRate, h]
  · simp [perPeriodRate, not_lt.mpr h]
  · simp [balanceAt, h]

/-- Witness for C3 at annualRatePct = 5, payPeriodsPerYear = 12. -/
theorem per_period_rate_conversion_witness :
    perPeriodRate 5 12 = (1 + (5 : ℝ) / 100) ^ ((1 : ℝ) / 12) - 1 :=
  (per_period_rate_conversion 5 12 ⟨0, 0, 0, 0, 0, 0, 0, none, 0⟩ 0).1 (by norm_num)

/-- C4: one easing cycle — a changed reset token snaps to computedMax; an
uninitialized displayMax or computedMax ≥ displayMax snaps up to computedMax;
otherwise the new displayMax is the previous value times one of the two decay
rates (0.96 or 0.985), floored at computedMax; and in every case the result
is never below computedMax. -/
theorem yMax_easing_transition (prev computed : ℚ) (lastTok tok : ℤ) :
    (lastTok ≠ tok → (yMaxDisplayStep prev computed lastTok tok).1 = computed)
    ∧ (lastTok = tok → (prev = 0 ∨ prev ≤ computed) →
        (yMaxDisplayStep prev computed lastTok tok).1 = computed)
    ∧ (lastTok = tok → prev ≠ 0 → computed < prev →
        (yMaxDisplayStep prev computed lastTok tok).1 = max computed (prev * 0.96) ∨
        (yMaxDisplayStep prev computed lastTok tok).1 = max computed (prev * 0.985))
    ∧ computed ≤ (yMaxDisplayStep prev computed lastTok tok).1 := by
  unfold yMaxDisplayStep
  split_ifs with h1 h2 h3 h4 h5
  · exact ⟨fun _ => rfl, fun heq _ => absurd heq h1, fun heq _ _ => absurd heq h1,
      le_refl computed⟩
  · exact ⟨fun _ => rfl, fun _ _ => rfl, fun _ hp _ => absurd h2 hp, le_refl computed⟩
  · exact ⟨fun _ => rfl, fun _ _ => rfl, fun _ _ hc => absurd h3 (not_le.mpr hc),
      le_refl computed⟩
  · exact ⟨fun hne => absurd hne h1, fun _ hor => absurd (hor.resolve_left h2) h3,
      fun _ _ _ => Or.inl rfl, le_max_left _ _⟩
  · exact ⟨fun hne => absurd hne h1, fun _ hor => absurd (hor.resolve_left h2) h3,
      fun _ _ _ => Or.inr rfl, le_max_left _ _⟩
  · exact absurd (not_lt.mp h5) h3

/-- Witness for C4: prev = 1000, computed = 400, unchanged token — one of the
two decay branches applies.  (400 < 0.75·1000, so the faster rate fires.) -/
theorem yMax_easing_transition_witness :
    (yMaxDisplayStep 1000 400 0 0).1 = max 400 ((1000 : ℚ) * 0.96) ∨
    (yMaxDisplayStep 1000 400 0 0).1 = max 400 ((1000 : ℚ) * 0.985) :=
  (yMax_easing_transition 1000 400 0 0).2.2.1 rfl (by norm_num) (by norm_num)

/-! ### Counting helpers for the sampling bound -/

/-- Filtering by a disjunction retains at most the sum of the separate counts. -/
theorem length_filter_or_le (p q : ℕ → Bool) (l : List ℕ) :
    (l.filter (fun i => p i || q i)).length ≤
      (l.filter p).length + (l.filter q).length := by
  induction l with
  | nil => simp
  | cons a t ih =>
      by_cases hp : p a <;> by_cases hq : q a <;>
        simp [List.filter_cons, hp, hq] <;> omega

/-- The multiples of s among 1..n number exactly n / s (for positive s). -/
theorem length_filter_mod_range' (s n : ℕ) :
    ((List.range' 1 n).filter (fun i => i % s == 0)).length = n / s := by
  induction n with
  | zero => simp
  | succ m ih =>
      rw [List.range'_concat, List.filter_append, List.length_append, ih,
        Nat.succ_div]
      have harr : 1 + 1 * m = m + 1 := by omega
      rw [harr]
      by_cases hd : s ∣ m + 1
      · have hm : (m + 1) % s = 0 := Nat.dvd_iff_mod_eq_zero.mp hd
        simp [List.filter_cons, hm, hd]
      · have hm : ¬((m + 1) % s = 0) := fun hc =>
          hd (Nat.dvd_iff_mod_eq_zero.mpr hc)
        simp [List.filter_cons, hm, hd]

/-- At most one element of 1..n equals n. -/
theorem length_filter_eq_range' (n : ℕ) :
    ((List.range' 1 n).filter (fun i => i == n)).length ≤ 1 := by
  have hc := List.nodup_iff_count_le_one.mp (List.nodup_range' 1 n) n
  rwa [List.count, List.countP_eq_length_filter] at hc

/-- `sampleStep` is always positive. -/
theorem sampleStep_pos (inp : ProjInput) : 0 < sampleStep inp := by
  unfold sampleStep
  split
  · exact one_pos
  · exact lt_of_lt_of_le one_pos (le_max_left _ _)

/-- The period indices of the retained points, in order. -/
theorem map_periodIndex_projPoints (inp : ProjInput) :
    (projPoints inp).map (fun pt => pt.periodIndex) =
      0 :: (List.range' 1 (totalPeriodsOf inp)).filter (retained inp) := by
  simp [projPoints, mkPoint, List.map_map, Function.comp_def]

/-- With sampling active (keepAll false), the retention test is the residue
test or the final index test. -/
theorem retained_eq_of_not_keepAll (inp : ProjInput) (h : keepAll inp = false) :
    retained inp = fun i => (i % sampleStep inp == 0 || i == totalPeriodsOf inp) := by
  funext i
  simp [retained, h]

/-- C2: with maxPoints = 0 the points array has exactly totalPeriods+1
entries; with maxPoints = M > 0 and stride = max(1, ceil(totalPeriods/M)),
an index i appears among the points iff i = 0, or i lies in [1, totalPeriods]
and i mod stride = 0 or i = totalPeriods; indices 0 and totalPeriods always
appear; and the number of points is at most totalPeriods/stride + 2. -/
theorem sampling_bounds (inp : ProjInput) :
    (inp.maxPoints = 0 →
      (computeProjection inp).points.length = totalPeriodsOf inp + 1)
    ∧ (0 < inp.maxPoints →
        sampleStep inp = max 1 (⌈(totalPeriodsOf inp : ℚ) / inp.maxPoints⌉).toNat
        ∧ (∀ i : ℕ,
            i ∈ (computeProjection inp).points.map (fun pt => pt.periodIndex) ↔
              (i = 0 ∨ (1 ≤ i ∧ i ≤ totalPeriodsOf inp ∧
                (i % sampleStep inp = 0 ∨ i = totalPeriodsOf inp))))
        ∧ 0 ∈ (computeProjection inp).points.map (fun pt => pt.periodIndex)
        ∧ totalPeriodsOf inp ∈
            (computeProjection inp).points.map (fun pt => pt.periodIndex)
        ∧ (computeProjection inp).points.length ≤
            totalPeriodsOf inp / sampleStep inp + 2) := by
  constructor
  · intro h0
    have hk : keepAll inp = true := by simp [keepAll, h0]
    have hall : (List.range' 1 (totalPeriodsOf inp)).filter (retained inp) =
        List.range' 1 (totalPeriodsOf inp) := by
      apply List.filter_eq_self.mpr
      intro a _
      simp [retained, hk]
    simp [computeProjection, projPoints, hall]
  · intro hM
    have hk : keepAll inp = false := by
      simp [keepAll]
      exact hM
    have hstep : sampleStep inp =
        max 1 (⌈(totalPeriodsOf inp : ℚ) / inp.maxPoints⌉).toNat := by
      unfold sampleStep
      rw [hk]
      simp
    have hmap := map_periodIndex_projPoints inp
    have hret := retained_eq_of_not_keepAll inp hk
    refine ⟨hstep, ?_, ?_, ?_, ?_⟩
    · intro i
      show i ∈ (projPoints inp).map (fun pt => pt.periodIndex) ↔ _
      rw [hmap, hret]
      simp only [List.mem_cons, List.mem_filter, List.mem_range'_1,
        Bool.or_eq_true, beq_iff_eq]
      constructor
      · rintro (h | ⟨⟨h1, h2⟩, h3⟩)
        · exact Or.inl h
        · exact Or.inr ⟨h1, by omega, h3⟩
      · rintro (h | ⟨h1, h2, h3⟩)
        · exact Or.inl h
        · exact Or.inr ⟨⟨h1, by omega⟩, h3⟩
    · show 0 ∈ (projPoints inp).map (fun pt => pt.periodIndex)
      rw [hmap]
      exact List.mem_cons_self _ _
    · show totalPeriodsOf inp ∈ (projPoints inp).map (fun pt => pt.periodIndex)
      rw [hmap]
      rcases Nat.eq_zero_or_pos (totalPeriodsOf inp) with hz | hpos
      · rw [hz]
        exact List.mem_cons_self _ _
      · refine List.mem_cons_of_mem _ (List.mem_filter.mpr ⟨?_, ?_⟩)
        · exact List.mem_range'_1.mpr ⟨hpos, by omega⟩
        · rw [hret]
          simp
    · have hlen : (computeProjection inp).points.length =
          1 + ((List.range' 1 (totalPeriodsOf inp)).filter (retained inp)).length := by
        simp [computeProjection, projPoints]
        omega
      rw [hlen, hret]
      have hb := length_filter_or_le (fun i => i % sampleStep inp == 0)
        (fun i => i == totalPeriodsOf inp) (List.range' 1 (totalPeriodsOf inp))
      have h1 := length_filter_mod_range' (sampleStep inp) (totalPeriodsOf inp)
      have h2 := length_filter_eq_range' (totalPeriodsOf inp)
      omega

/-- Witness for C2 at a run with 10 periods and maxPoints = 3 (stride 4). -/
theorem sampling_bounds_witness :
    (computeProjection
        { currentAge := 0, retirementAge := 1, startingAmount := 0,
          contributionPerPayday := 50, rPerPeriod := 0, payPeriodsPerYear := 10,
          windfallAmount := 0, windfallAtPeriod := none,
          maxPoints := 3 }).points.length ≤
      totalPeriodsOf
        { currentAge := 0, retirementAge := 1, startingAmount := 0,
          contributionPerPayday := 50, rPerPeriod := 0, payPeriodsPerYear := 10,
          windfallAmount := 0, windfallAtPeriod := none, maxPoints := 3 } /
        sampleStep
        { currentAge := 0, retirementAge := 1, startingAmount := 0,
          contributionPerPayday := 50, rPerPeriod := 0, payPeriodsPerYear := 10,
          windfallAmount := 0, windfallAtPeriod := none, maxPoints := 3 } + 2 :=
  ((sampling_bounds _).2 (by norm_num)).2.2.2.2

/-! ### Monotonicity of the contribution accumulator -/

/-- Each period's deposit is non-negative when the per-payday contribution is
(the windfall branch only ever fires for a positive amount). -/
theorem depositAt_nonneg (inp : ProjInput)
    (h : 0 ≤ inp.contributionPerPayday) (i : ℕ) : 0 ≤ depositAt inp i := by
  unfold depositAt
  split_ifs with hw
  · have := hw.1
    linarith
  · linarith

/-- `totalContrib` is monotone in the period index when the contribution is
non-negative. -/
theorem totalContribAt_mono (inp : ProjInput)
    (h : 0 ≤ inp.contributionPerPayday) :
    Monotone (fun i => totalContribAt inp i) := by
  apply monotone_nat_of_le_succ
  intro i
  show totalContribAt inp i ≤ totalContribAt inp (i + 1)
  rw [totalContribAt]
  have := depositAt_nonneg inp h (i + 1)
  linarith

/-- The totalContrib values of the retained points, in order. -/
theorem map_totalContrib_projPoints (inp : ProjInput) :
    (projPoints inp).map (fun pt => pt.totalContrib) =
      (0 :: (List.range' 1 (totalPeriodsOf inp)).filter (retained inp)).map
        (fun i => totalContribAt inp i) := by
  simp [projPoints, mkPoint, simState, List.map_map, Function.comp_def,
    totalContribAt]

/-- The index list underlying `projPoints` is strictly increasing. -/
theorem pairwise_lt_indices (inp : ProjInput) :
    (0 :: (List.range' 1 (totalPeriodsOf inp)).filter (retained inp)).Pairwise
      (fun a b => a < b) := by
  refine List.pairwise_cons.mpr ⟨?_, ?_⟩
  · intro b hb
    have := (List.mem_range'_1.mp (List.mem_filter.mp hb).1).1
    omega
  · exact (List.pairwise_lt_range' 1 (totalPeriodsOf inp)).sublist
      (List.filter_sublist _)

/-- C8 counterexample input: a negative per-payday contribution (the callers
parse but do not clamp the contribution field), two periods, no sampling. -/
def negContribInput : ProjInput :=
  { currentAge := 0, retirementAge := 1, startingAmount := 0,
    contributionPerPayday := -1, rPerPeriod := 0, payPeriodsPerYear := 2,
    windfallAmount := 0, windfallAtPeriod := none, maxPoints := 0 }

/-- C8 (counterexample): with contributionPerPayday = −1 the totalContrib
column of the points array is 0, −1, −2 — strictly decreasing — so
totalContrib is not non-decreasing across points for every run. -/
theorem totalContrib_not_monotone_cex :
    ((computeProjection negContribInput).points.map (fun pt => pt.totalContrib)) =
        [0, -1, -2]
    ∧ ¬ ((computeProjection negContribInput).points.map
          (fun pt => pt.totalContrib)).Sorted (fun a b => a ≤ b) := by
  constructor
  · with_unfolding_all decide
  · with_unfolding_all decide

/-- C8 (amended): whenever the per-payday contribution is non-negative — as
for every value the UI's windfall-guarded simulator was designed for — the
totalContrib field is non-decreasing across the points array in index order. -/
theorem totalContrib_monotone (inp : ProjInput)
    (h : 0 ≤ inp.contributionPerPayday) :
    ((computeProjection inp).points.map (fun pt => pt.totalContrib)).Sorted
      (fun a b => a ≤ b) := by
  show ((projPoints inp).map (fun pt => pt.totalContrib)).Pairwise _
  rw [map_totalContrib_projPoints]
  rw [List.pairwise_map]
  exact (pairwise_lt_indices inp).imp
    (fun hab => totalContribAt_mono inp h (le_of_lt hab))

/-- Witness for C8 (amended) on a concrete two-period run. -/
theorem totalContrib_monotone_witness :
    ((computeProjection
        { currentAge := 0, retirementAge := 1, startingAmount := 100,
          contributionPerPayday := 50, rPerPeriod := 0, payPeriodsPerYear := 2,
          windfallAmount := 0, windfallAtPeriod := none,
          maxPoints := 0 }).points.map (fun pt => pt.totalContrib)).Sorted
      (fun a b => a ≤ b) :=
  totalContrib_monotone _ (by norm_num)

/-! ### Windfall scheduler range -/

/-- `clampInt` lands in [lo, hi] whenever lo ≤ hi. -/
theorem clampInt_mem (n lo hi : ℚ) (h : lo ≤ hi) :
    lo ≤ clampInt n lo hi ∧ clampInt n lo hi ≤ hi := by
  unfold clampInt
  exact ⟨le_min h (le_max_left _ _), min_le_left _ _⟩

/-- C5 (counterexample): with totalPeriods = 0 and the NextPayday policy the
scheduler returns period 1, not a null/absent period (and 1 is outside the
empty range [1, 0]); the scheduler also never consults the windfall amount,
so an amount ≤ 0 cannot make it return null. -/
theorem windfall_scheduler_cex :
    windfallPeriodFromChoice .wnow 0 0 0 30 12 0 = some 1 := by
  with_unfolding_all decide

/-- C5 (amended): the scheduler returns null exactly for the None (or
falsy/unrecognized) policy; whenever totalPeriods ≥ 1 every non-null result
lies in [1, totalPeriods].  (The amount ≤ 0 and totalPeriods = 0 cases are
instead neutralized downstream: the simulator's windfall branch never fires
for them — see the windfall no-op theorem.) -/
theorem windfall_scheduler_range (wh : WfWhen)
    (atYear atAge atPayday currentAge p n : ℚ) :
    ((wh = WfWhen.wnone ∨ wh = WfWhen.wother) →
      windfallPeriodFromChoice wh atYear atAge atPayday currentAge p n = none)
    ∧ (1 ≤ n → ∀ k,
        windfallPeriodFromChoice wh atYear atAge atPayday currentAge p n = some k →
          1 ≤ k ∧ k ≤ n) := by
  constructor
  · rintro (rfl | rfl) <;> rfl
  · intro hn k hk
    cases wh with
    | wnone => exact absurd hk (by simp [windfallPeriodFromChoice])
    | wother => exact absurd hk (by simp [windfallPeriodFromChoice])
    | wnow =>
        have : k = 1 := by
          simpa [windfallPeriodFromChoice] using hk.symm
        subst this
        exact ⟨le_refl 1, hn⟩
    | wyear =>
        have hkv : k = clampInt (clampInt atYear 1 80 * p) 1 n := by
          simpa [windfallPeriodFromChoice] using hk.symm
        subst hkv
        exact clampInt_mem _ 1 n hn
    | wage =>
        have hkv : k = clampInt
            (max 0 (clampInt atAge currentAge (currentAge + 80) - currentAge) * p)
            1 n := by
          simpa [windfallPeriodFromChoice] using hk.symm
        subst hkv
        exact clampInt_mem _ 1 n hn
    | wpayday =>
        have hkv : k = clampInt atPayday 1 n := by
          simpa [windfallPeriodFromChoice] using hk.symm
        subst hkv
        exact clampInt_mem _ 1 n hn

/-- Witness for C5 (amended): an AtPaydayIndex(7) policy over 780 periods
resolves inside [1, 780]. -/
theorem windfall_scheduler_range_witness :
    1 ≤ (7 : ℚ) ∧ (7 : ℚ) ≤ 780 :=
  (windfall_scheduler_range .wpayday 0 0 7 30 26 780).2 (by norm_num) 7
    (by with_unfolding_all decide)

/-! ### Out-of-range windfall is a no-op -/

/-- C10: if the resolved windfallAtPeriod is null or lies outside
[1, totalPeriods], or the windfallAmount is ≤ 0, then computeProjection
returns exactly the same result as the same input with windfallAmount = 0:
the windfall branch never fires and no other field is affected. -/
theorem windfall_out_of_range_noop (inp : ProjInput)
    (h : inp.windfallAmount ≤ 0 ∨ inp.windfallAtPeriod = none ∨
         ∃ k, inp.windfallAtPeriod = some k ∧
           (k < 1 ∨ (totalPeriodsOf inp : ℚ) < k)) :
    computeProjection inp = computeProjection { inp with windfallAmount := 0 } := by
  have hdep : ∀ i : ℕ, 1 ≤ i → i ≤ totalPeriodsOf inp →
      depositAt inp i = depositAt { inp with windfallAmount := 0 } i := by
    intro i h1 h2
    unfold depositAt
    have hfalse : ¬(0 < inp.windfallAmount ∧
        inp.windfallAtPeriod = some (i : ℚ)) := by
      rcases h with ha | hnone | ⟨k, hk, hor⟩
      · rintro ⟨hpos, _⟩
        linarith
      · rintro ⟨_, hsome⟩
        rw [hnone] at hsome
        exact Option.noConfusion hsome
      · rintro ⟨_, hsome⟩
        rw [hk] at hsome
        have hki : k = (i : ℚ) := Option.some.inj hsome
        rcases hor with hlt | hgt
        · have hi1 : (1 : ℚ) ≤ (i : ℚ) := by exact_mod_cast h1
          rw [hki] at hlt
          linarith
        · have hin : (i : ℚ) ≤ (totalPeriodsOf inp : ℚ) := by exact_mod_cast h2
          rw [hki] at hgt
          linarith
    rw [if_neg hfalse]
    simp
  have hbal : ∀ i : ℕ, i ≤ totalPeriodsOf inp →
      balanceAt inp i = balanceAt { inp with windfallAmount := 0 } i := by
    intro i
    induction i with
    | zero => exact fun _ => rfl
    | succ j ih =>
        intro hle
        show (balanceAt inp j + depositAt inp (j + 1)) * (1 + inp.rPerPeriod) = _
        rw [ih (by omega), hdep (j + 1) (by omega) hle]
        rfl
  have hcontrib : ∀ i : ℕ, i ≤ totalPeriodsOf inp →
      totalContribAt inp i = totalContribAt { inp with windfallAmount := 0 } i := by
    intro i
    induction i with
    | zero => exact fun _ => rfl
    | succ j ih =>
        intro hle
        show totalContribAt inp j + depositAt inp (j + 1) = _
        rw [ih (by omega), hdep (j + 1) (by omega) hle]
        rfl
  have hpts : projPoints inp = projPoints { inp with windfallAmount := 0 } := by
    unfold projPoints
    refine congrArg₂ _ rfl ?_
    refine List.map_congr_left ?_
    intro i hi
    have hmem := (List.mem_filter.mp hi).1
    have h1 : 1 ≤ i := (List.mem_range'_1.mp hmem).1
    have h2 : i ≤ totalPeriodsOf inp := by
      have := (List.mem_range'_1.mp hmem).2
      omega
    have hne : i ≠ 0 := by omega
    have hb := hbal i h2
    have hb' := hbal (i - 1) (by omega)
    have hd := hdep i h1 h2
    have hc := hcontrib i h2
    simp [mkPoint, simState, interestAt, hne, hb, hb', hd, hc]
  simp only [computeProjection, ProjResult.mk.injEq]
  refine ⟨rfl, rfl, ?_, ?_, ?_, hpts⟩
  · exact hbal (totalPeriodsOf inp) le_rfl
  · exact hcontrib (totalPeriodsOf inp) le_rfl
  · show balanceAt inp _ - _ - totalContribAt inp _ = _
    rw [hbal (totalPeriodsOf inp) le_rfl, hcontrib (totalPeriodsOf inp) le_rfl]
    rfl

/-- C10 witness input: a positive windfall aimed at period 100 of a 2-period
run (out of range). -/
def outOfRangeWindfallInput : ProjInput :=
  { currentAge := 0, retirementAge := 1, startingAmount := 10,
    contributionPerPayday := 5, rPerPeriod := 0, payPeriodsPerYear := 2,
    windfallAmount := 500, windfallAtPeriod := some 100, maxPoints := 0 }

/-- Witness for C10: the out-of-range windfall input produces exactly the
zero-windfall result. -/
theorem windfall_out_of_range_noop_witness :
    computeProjection outOfRangeWindfallInput =
      computeProjection { outOfRangeWindfallInput with windfallAmount := 0 } :=
  windfall_out_of_range_noop outOfRangeWindfallInput
    (Or.inr (Or.inr ⟨100, rfl, Or.inr (by with_unfolding_all decide)⟩))

/-! ### Tick generation -/

/-- Among 0..n−1 there are n/2 odd numbers. -/
theorem count_odd_range (n : ℕ) :
    ((List.range n).filter (fun i => i % 2 = 1)).length = n / 2 := by
  induction n with
  | zero => simp
  | succ m ih =>
      rw [List.range_succ, List.filter_append, List.length_append, ih]
      by_cases hm : m % 2 = 1 <;> simp [hm] <;> omega

/-- Length of the thinning pass: unchanged when ≤ 7, else
(len − 1)/2 + 2 (first, odd-indexed interior entries, last). -/
theorem thinTicks_length (l : List ℚ) :
    (thinTicks l).length =
      if l.length ≤ 7 then l.length else (l.length - 1) / 2 + 2 := by
  unfold thinTicks
  split_ifs with h
  · rfl
  · simp [count_odd_range]

/-- C6 (counterexample): makeLogTicks(3000) returns 8 ticks, so the output
length is not always ≤ 7. -/
theorem makeLogTicks_length_cex :
    (makeLogTicks 3000).length = 8 ∧ ¬((makeLogTicks 3000).length ≤ 7) := by
  constructor
  · with_unfolding_all decide
  · with_unfolding_all decide

/-- C6 (amended): the thinning pass keeps the first (0) and last (max)
entries and the odd-indexed interior entries, so the output length is
exactly the deduplicated count L when L ≤ 7, and (L−1)/2 + 2 otherwise —
which is ≤ 7 exactly when L ≤ 12, not for every input. -/
theorem makeLogTicks_thinning (x : ℚ) :
    ((makeLogTicks x).length =
      if (uniqTicks x).length ≤ 7 then (uniqTicks x).length
      else ((uniqTicks x).length - 1) / 2 + 2)
    ∧ ((uniqTicks x).length ≤ 12 → (makeLogTicks x).length ≤ 7) := by
  have hl := thinTicks_length (uniqTicks x)
  refine ⟨hl, fun h12 => ?_⟩
  show (thinTicks (uniqTicks x)).length ≤ 7
  rw [thinTicks_length]
  split_ifs with h7 <;> omega

/-- Witness for C6 (amended) at max = 100 (8 deduplicated ticks). -/
theorem makeLogTicks_thinning_witness : (makeLogTicks 100).length ≤ 7 :=
  (makeLogTicks_thinning 100).2 (by with_unfolding_all decide)

/-- `niceStep` always returns a positive step. -/
theorem niceStep_pos (span : ℚ) (t : ℕ) : 0 < niceStep span t := by
  unfold niceStep
  dsimp only
  split_ifs <;> positivity

/-- 0 is always among the deduplicated log ticks (it heads the raw list). -/
theorem zero_mem_uniqTicksFrom (m : ℚ) : (0 : ℚ) ∈ uniqTicksFrom m := by
  unfold uniqTicksFrom
  dsimp only
  rw [List.Perm.mem_iff (List.perm_insertionSort _ _), List.mem_dedup]
  split_ifs with hl
  · exact List.mem_cons_self _ _
  · exact List.mem_append_left _ (List.mem_cons_self _ _)

/-- C7 (counterexample): on a degenerate span pickTicks returns the empty
list — not a set containing 0 and not a single tick at 1. -/
theorem pickTicks_degenerate_cex :
    pickTicks 0 0 4 = [] ∧ (0 : ℚ) ∉ pickTicks 0 0 4 := by
  constructor
  · with_unfolding_all decide
  · with_unfolding_all decide

/-- C7 (amended): pickTicks returns the empty list on a degenerate span
(max ≤ min) and a list containing 0 whenever min < max; makeLogTicks always
contains 0, and for max ≤ 1 (including all non-positive max) returns the
safe finite default [0, 1].  No NaN/Infinity can arise: every entry is a
rational number by construction. -/
theorem tick_safety_amended (lo hi x : ℚ) (t : ℕ) :
    (hi ≤ lo → pickTicks lo hi t = [])
    ∧ (lo < hi → 0 ∈ pickTicks lo hi t)
    ∧ 0 ∈ makeLogTicks x
    ∧ (x ≤ 1 → makeLogTicks x = [0, 1]) := by
  refine ⟨fun h => ?_, fun h => ?_, ?_, fun h => ?_⟩
  · unfold pickTicks
    rw [if_pos h]
  · unfold pickTicks
    rw [if_neg (not_le.mpr h)]
    show (0 : ℚ) ∈ (List.range
        ((⌊(max (niceStep (hi - lo) t) (niceCeil hi) + niceStep (hi - lo) t / 2) /
            niceStep (hi - lo) t⌋ + 1).toNat)).map
      (fun j : ℕ => (j : ℚ) * niceStep (hi - lo) t)
    have hstep := niceStep_pos (hi - lo) t
    have harg : (0 : ℚ) ≤
        (max (niceStep (hi - lo) t) (niceCeil hi) + niceStep (hi - lo) t / 2) /
          niceStep (hi - lo) t := by
      apply div_nonneg
      · have := le_max_left (niceStep (hi - lo) t) (niceCeil hi)
        linarith
      · linarith
    have hfloor := Int.floor_nonneg.mpr harg
    have hcount : 0 ∈ List.range
        ((⌊(max (niceStep (hi - lo) t) (niceCeil hi) + niceStep (hi - lo) t / 2) /
            niceStep (hi - lo) t⌋ + 1).toNat) := by
      refine List.mem_range.mpr ?_
      omega
    have hmem := List.mem_map_of_mem (fun j : ℕ => (j : ℚ) * niceStep (hi - lo) t)
      hcount
    have h00 : (0 : ℚ) = ((0 : ℕ) : ℚ) * niceStep (hi - lo) t := by norm_num
    rw [h00]
    exact hmem
  · show (0 : ℚ) ∈ thinTicks (uniqTicks x)
    have h0 : (0 : ℚ) ∈ uniqTicks x := zero_mem_uniqTicksFrom _
    unfold thinTicks
    split_ifs with h7
    · exact h0
    · exact List.mem_cons_self _ _
  · have hm : max 1 (if x = 0 then 1 else x) = 1 := by
      rcases eq_or_ne x 0 with h0 | h0
      · simp [h0]
      · rw [if_neg h0]
        exact max_eq_left h
    show thinTicks (uniqTicksFrom (max 1 (if x = 0 then 1 else x))) = [0, 1]
    rw [hm]
    with_unfolding_all decide

/-- Witness for C7 (amended): a non-degenerate span contains tick 0, and a
sub-unit max yields the default [0, 1]. -/
theorem tick_safety_amended_witness :
    0 ∈ pickTicks 0 10 4 ∧ makeLogTicks (1/2) = [0, 1] :=
  ⟨(tick_safety_amended 0 10 (1/2) 4).2.1 (by norm_num),
   (tick_safety_amended 0 10 (1/2) 4).2.2.2 (by norm_num)⟩
